import Mathlib

/-!
Verification development for the 2D mass-spring softbody demo
(IGME-RIT physics-massSpring-2D, file Mass Spring 2D/main.cpp).

The physics core is embedded shallowly:
* glm 3-component float vectors become triples of real numbers;
* `RigidBody`, `SoftBody`, `IntegrateLinear`, the per-step force
  accumulation loop of `update`, and the fixed-timestep scheduler
  `checkTime` are translated definition by definition from the source;
* machine floats become exact real (physics) or rational (scheduler)
  arithmetic.
-/

namespace MassSpring

noncomputable section

/-- glm vec3 modelled as a triple of reals, components x, y, z in order. -/
abbrev Vec3 : Type := ℝ × ℝ × ℝ

/-- Constructor mirroring glm vec3(x, y, z). -/
def vec3 (x y z : ℝ) : Vec3 := (x, y, z)

/-- Length of a glm vec3: the square root of the dot product with itself. -/
def glmLength (v : Vec3) : ℝ := Real.sqrt (v.1 * v.1 + v.2.1 * v.2.1 + v.2.2 * v.2.2)

/-- glm normalize: the vector divided by its length.  On the zero vector the
C++ code divides by zero; over the reals the Lean convention makes this the
zero vector, while in floating point it is undefined (NaN). -/
def glmNormalize (v : Vec3) : Vec3 := (glmLength v)⁻¹ • v

/-- struct RigidBody of main.cpp: mass data, kinematic state and the
per-step force and impulse accumulators. -/
structure RigidBody where
  mass : ℝ
  inverseMass : ℝ
  position : Vec3
  velocity : Vec3
  acceleration : Vec3
  netForce : Vec3
  netImpulse : Vec3

attribute [ext] RigidBody

/-- Parameterized RigidBody constructor (main.cpp lines 211-222):
inverseMass is 0 when the mass is 0 (infinite mass) and 1/m otherwise;
both accumulators start at zero. -/
def RigidBody.make (pos vel acc : Vec3) (m : ℝ) : RigidBody :=
  { mass := m
    inverseMass := if m = 0 then 0 else 1 / m
    position := pos
    velocity := vel
    acceleration := acc
    netForce := vec3 0 0 0
    netImpulse := vec3 0 0 0 }

/-- Default RigidBody constructor (main.cpp lines 191-201). -/
def RigidBody.default0 : RigidBody :=
  { mass := 1
    inverseMass := 1
    position := vec3 0 0 0
    velocity := vec3 0 0 0
    acceleration := vec3 0 0 0
    netForce := vec3 0 0 0
    netImpulse := vec3 0 0 0 }

/-- Second order Euler integration for linear motion
(IntegrateLinear, main.cpp lines 408-424).  The acceleration is computed
from the pre-update net force, position uses X0 + V0 dt + (1/2) A dt^2,
velocity uses the new acceleration and the net impulse, and finally both
accumulators are zeroed. -/
def IntegrateLinear (dt : ℝ) (body : RigidBody) : RigidBody :=
  let acceleration : Vec3 := body.inverseMass • body.netForce
  let v0dT : Vec3 := dt • body.velocity
  let aT2 : Vec3 := ((1 / 2 : ℝ) * dt ^ 2) • acceleration
  { body with
    acceleration := acceleration
    position := body.position + (v0dT + aT2)
    velocity := body.velocity + (dt • acceleration + body.inverseMass • body.netImpulse)
    netForce := vec3 0 0 0
    netImpulse := vec3 0 0 0 }

/-- struct SoftBody of main.cpp.  The grid dimensions subdivisionsY and
subdivisionsX are fixed at construction, so they appear as type indices;
bodies i j is the rigidbody bodies[i][j]. -/
structure SoftBody (sy sx : ℕ) where
  numRigidBodies : ℕ
  restHeight : ℝ
  restWidth : ℝ
  coefficient : ℝ
  dampening : ℝ
  bodies : Fin sy → Fin sx → RigidBody

attribute [ext] SoftBody

/-- SoftBody constructor (main.cpp lines 253-288): numRigidBodies = subX*subY,
restWidth = width/subX, restHeight = height/subY, and node (i, j) is placed
at (-width/2 + (width/subX) j, -height/2 + (height/subY) i, 0) with zero
velocity and acceleration and mass 1. -/
def mkSoftBody (width height : ℝ) (subX subY : ℕ) (coeff damp : ℝ) :
    SoftBody subY subX :=
  { numRigidBodies := subX * subY
    restHeight := height / (subY : ℝ)
    restWidth := width / (subX : ℝ)
    coefficient := coeff
    dampening := damp
    bodies := fun i j =>
      RigidBody.make
        (vec3 (-width / 2 + width / (subX : ℝ) * (j.val : ℝ))
              (-height / 2 + height / (subY : ℝ) * (i.val : ℝ)) 0)
        (vec3 0 0 0) (vec3 0 0 0) 1 }

/-- The external force assembled at the top of update (main.cpp lines
430-455) from the held input: left shift selects the Y axis, the left
mouse button writes +2 into the selected component, the right mouse button
then writes -2 (so when both are held the right button, evaluated second,
wins). -/
def externalForceOf (lshift lmb rmb : Bool) : Vec3 :=
  let externalForce : Vec3 := vec3 0 0 0
  if lshift then
    let f1 : Vec3 := if lmb then vec3 externalForce.1 2 externalForce.2.2 else externalForce
    let f2 : Vec3 := if rmb then vec3 f1.1 (-2) f1.2.2 else f1
    f2
  else
    let f1 : Vec3 := if lmb then vec3 2 externalForce.2.1 externalForce.2.2 else externalForce
    let f2 : Vec3 := if rmb then vec3 (-2) f1.2.1 f1.2.2 else f1
    f2

/-- Index i-1 of the row or column above or left of i. -/
def prevIdx {n : ℕ} (i : Fin n) (h : 0 < i.val) : Fin n :=
  ⟨i.val - 1, by have := i.isLt; omega⟩

/-- Index i+1 of the row or column below or right of i. -/
def nextIdx {n : ℕ} (i : Fin n) (h : i.val < n - 1) : Fin n :=
  ⟨i.val + 1, by have := i.isLt; omega⟩

/-- One spring-damper contribution of the force loop (main.cpp line 482
and its three analogues):  coefficient * (|d| - restLen) * normalize(d)
minus the node velocity times the dampening constant. -/
def springContrib (coeff damp rest : ℝ) (d v : Vec3) : Vec3 :=
  (coeff * (glmLength d - rest)) • glmNormalize d - damp • v

/-- The list of displacement vectors handed to glm normalize while the
force loop processes node (i, j), in source order: up neighbor (i > 0),
down neighbor (i < subY-1), left neighbor (j > 0), right neighbor
(j < subX-1); each is neighbor.position - self.position
(main.cpp lines 469-510). -/
def cellDisplacements {sy sx : ℕ} (b : SoftBody sy sx) (i : Fin sy) (j : Fin sx) :
    List Vec3 :=
  (if h : 0 < i.val then
      [(b.bodies (prevIdx i h) j).position - (b.bodies i j).position] else [])
  ++ (if h : i.val < sy - 1 then
      [(b.bodies (nextIdx i h) j).position - (b.bodies i j).position] else [])
  ++ (if h : 0 < j.val then
      [(b.bodies i (prevIdx j h)).position - (b.bodies i j).position] else [])
  ++ (if h : j.val < sx - 1 then
      [(b.bodies i (nextIdx j h)).position - (b.bodies i j).position] else [])

/-- The list of spring contributions accumulated into netForce of node
(i, j) by the force loop, in source order; the rest length is restHeight
for the two vertical neighbors and restWidth for the two horizontal ones
(main.cpp lines 469-510). -/
def cellSprings {sy sx : ℕ} (b : SoftBody sy sx) (i : Fin sy) (j : Fin sx) :
    List Vec3 :=
  (if h : 0 < i.val then
      [springContrib b.coefficient b.dampening b.restHeight
        ((b.bodies (prevIdx i h) j).position - (b.bodies i j).position)
        (b.bodies i j).velocity] else [])
  ++ (if h : i.val < sy - 1 then
      [springContrib b.coefficient b.dampening b.restHeight
        ((b.bodies (nextIdx i h) j).position - (b.bodies i j).position)
        (b.bodies i j).velocity] else [])
  ++ (if h : 0 < j.val then
      [springContrib b.coefficient b.dampening b.restWidth
        ((b.bodies i (prevIdx j h)).position - (b.bodies i j).position)
        (b.bodies i j).velocity] else [])
  ++ (if h : j.val < sx - 1 then
      [springContrib b.coefficient b.dampening b.restWidth
        ((b.bodies i (nextIdx j h)).position - (b.bodies i j).position)
        (b.bodies i j).velocity] else [])

/-- Everything the loop body adds to netForce of node (i, j): the sum of
the incident spring contributions, plus the external force when the node
is on the bottom row i = 0 (main.cpp lines 512-514). -/
def cellDelta {sy sx : ℕ} (ext : Vec3) (b : SoftBody sy sx) (i : Fin sy) (j : Fin sx) :
    Vec3 :=
  (cellSprings b i j).sum + (if i.val = 0 then ext else 0)

/-- One iteration of the force loop body: node (i, j) gets its accumulated
delta added to netForce, every other node is untouched.  The loop reads
only positions and velocities of neighbors and writes only the current
node's netForce, so the grid passed to cellDelta is the current one. -/
def accumulateCell {sy sx : ℕ} (ext : Vec3) (g : SoftBody sy sx)
    (c : Fin sy × Fin sx) : SoftBody sy sx :=
  { g with
    bodies := fun i j =>
      if i = c.1 ∧ j = c.2 then
        { g.bodies i j with netForce := (g.bodies i j).netForce + cellDelta ext g c.1 c.2 }
      else g.bodies i j }

/-- The cells (i, j) in the order the nested force loop visits them:
i from 0 to subY-1, inner j from 0 to subX-1 (main.cpp lines 462-465). -/
def cellList (sy sx : ℕ) : List (Fin sy × Fin sx) :=
  (List.finRange sy).flatMap fun i => (List.finRange sx).map fun j => (i, j)

/-- The force-accumulation pass of update (main.cpp lines 461-516):
fold the loop body over the cells in loop order. -/
def forcePass {sy sx : ℕ} (ext : Vec3) (b : SoftBody sy sx) : SoftBody sy sx :=
  List.foldl (accumulateCell ext) b (cellList sy sx)

/-- The integration pass of update (main.cpp lines 521-533): every node is
integrated with IntegrateLinear; each loop iteration touches only its own
node, so the pass is pointwise. -/
def integratePass {sy sx : ℕ} (dt : ℝ) (b : SoftBody sy sx) : SoftBody sy sx :=
  { b with bodies := fun i j => IntegrateLinear dt (b.bodies i j) }

/-- One physics timestep (update, main.cpp lines 427-535): read the input
into the external force, run the force-accumulation pass, then integrate
every node. -/
def update {sy sx : ℕ} (lshift lmb rmb : Bool) (dt : ℝ) (b : SoftBody sy sx) :
    SoftBody sy sx :=
  integratePass dt (forcePass (externalForceOf lshift lmb rmb) b)

/-- All displacement vectors handed to glm normalize during one whole
force-accumulation pass, in execution order. -/
def normalizeArgs {sy sx : ℕ} (b : SoftBody sy sx) : List Vec3 :=
  (cellList sy sx).flatMap fun c => cellDisplacements b c.1 c.2

/-- Two grid cells are linked by a structural spring when they are
horizontal or vertical neighbors. -/
def Linked {sy sx : ℕ} (c cn : Fin sy × Fin sx) : Prop :=
  (c.1 = cn.1 ∧ (c.2.val + 1 = cn.2.val ∨ cn.2.val + 1 = c.2.val)) ∨
  (c.2 = cn.2 ∧ (c.1.val + 1 = cn.1.val ∨ cn.1.val + 1 = c.1.val))

end

/-! The fixed-timestep scheduler, over exact rationals. -/

/-- The physics timestep of the program: double physicsStep = 0.012
(main.cpp line 309). -/
def physicsStep : ℚ := 0.012

/-- The scheduler state: the globals timebase and accumulator
(main.cpp lines 307-308). -/
structure Stepper where
  timebase : ℚ
  accumulator : ℚ
deriving DecidableEq

/-- Initial scheduler state: both globals start at 0.0. -/
def stepperInit : Stepper := { timebase := 0, accumulator := 0 }

/-- The while loop of checkTime (main.cpp lines 560-564): as long as
accumulator >= step, run one update and subtract step.  Returns how many
updates ran and the remaining accumulator.  The source loop terminates
because physicsStep = 0.012 is positive; the positivity test guards the
recursion and always holds at the program's step value. -/
def drain (step acc : ℚ) : ℕ × ℚ :=
  if h : 0 < step ∧ step ≤ acc then
    let r := drain step (acc - step)
    (r.1 + 1, r.2)
  else (0, acc)
termination_by (⌊acc / step⌋).toNat
decreasing_by
  obtain ⟨h1, h2⟩ := h
  have hne : step ≠ 0 := ne_of_gt h1
  have hsub : (acc - step) / step = acc / step - 1 := by
    rw [sub_div, div_self hne]
  have h3 : (1 : ℚ) ≤ acc / step := (one_le_div h1).mpr h2
  have h4 : (1 : ℤ) ≤ ⌊acc / step⌋ := by
    rw [Int.le_floor]
    exact_mod_cast h3
  rw [hsub, Int.floor_sub_one]
  omega

/-- One frame of the scheduler (checkTime, main.cpp lines 538-566) at wall
time t: dt = t - timebase; only when dt > step does the frame update
timebase, clamp dt to 0.25, add it to the accumulator and drain whole
steps.  Returns the new state and the number of physics updates run. -/
def checkTime (step : ℚ) (s : Stepper) (t : ℚ) : Stepper × ℕ :=
  let dt := t - s.timebase
  if step < dt then
    let dtc := if (0.25 : ℚ) < dt then (0.25 : ℚ) else dt
    let r := drain step (s.accumulator + dtc)
    ({ timebase := t, accumulator := r.2 }, r.1)
  else (s, 0)

/-- Run the scheduler over a list of reported wall times, summing the
physics updates performed. -/
def runFrames (step : ℚ) (s : Stepper) : List ℚ → Stepper × ℕ
  | [] => (s, 0)
  | t :: ts =>
    let r := checkTime step s t
    let rest := runFrames step r.1 ts
    (rest.1, r.2 + rest.2)

/-- A scheduler state the program can be in: reachable from the initial
state by some sequence of frames. -/
def Reachable (step : ℚ) (s : Stepper) : Prop :=
  ∃ ts : List ℚ, (runFrames step stepperInit ts).1 = s

/-! Definitions used only to state claims. -/

/-- Modelled from the spec (section 4.4): the claimed frame behavior,
which runs the catch-up branch already when dt is not smaller than the
fixed step (dt greater than or equal to the step), while the code requires
dt strictly greater.  The branch body is the same as in checkTime. -/
def checkTimeClaimed (step : ℚ) (s : Stepper) (t : ℚ) : Stepper × ℕ :=
  let dt := t - s.timebase
  if step ≤ dt then
    let dtc := if (0.25 : ℚ) < dt then (0.25 : ℚ) else dt
    let r := drain step (s.accumulator + dtc)
    ({ timebase := t, accumulator := r.2 }, r.1)
  else (s, 0)

/-- Closed form of the catch-up branch of checkTime: clamp the delta to
0.25, add it to the accumulator, then the drained step count is the floor
of accumulator / step and the floor remainder stays in the accumulator. -/
def frameResult (step : ℚ) (s : Stepper) (t : ℚ) : Stepper × ℕ :=
  let dtc := if (0.25 : ℚ) < t - s.timebase then (0.25 : ℚ) else t - s.timebase
  let A := s.accumulator + dtc
  ({ timebase := t, accumulator := A - step * ⌊A / step⌋ }, (⌊A / step⌋).toNat)

/-- The clamp-guard claim as stated: on any reachable state of the
scheduler at the program step 0.012, a single frame whose wall-clock jump
is 10.0 seconds runs at most floor(0.25 / 0.012) = 20 physics updates. -/
def ClaimClampBound : Prop :=
  ∀ s : Stepper, Reachable physicsStep s →
    ∀ t : ℚ, t - s.timebase = 10 →
      (checkTime physicsStep s t).2 ≤ (⌊(0.25 : ℚ) / physicsStep⌋).toNat

/-- The fail-fast claim as stated: an invalid configuration (zero
subdivision counts) is rejected, so no zero-node lattice ever results. -/
def ClaimFailFast : Prop :=
  ∀ width height coeff damp : ℝ,
    (mkSoftBody width height 0 0 coeff damp).numRigidBodies ≠ 0

noncomputable section

/-- Modelled from the spec (section 4.2): a lattice is centered at the
origin when the centroid (average of all node positions) is the zero
vector. -/
def latticeCentroid {sy sx : ℕ} (b : SoftBody sy sx) : Vec3 :=
  ((sy * sx : ℕ) : ℝ)⁻¹ • ∑ i : Fin sy, ∑ j : Fin sx, (b.bodies i j).position

/-- Agreement of two rigidbodies on every field except netForce. -/
def KinEq (a b : RigidBody) : Prop :=
  a.mass = b.mass ∧ a.inverseMass = b.inverseMass ∧ a.position = b.position ∧
  a.velocity = b.velocity ∧ a.acceleration = b.acceleration ∧ a.netImpulse = b.netImpulse

/-- Agreement of two softbodies on the spring parameters and node count. -/
def ParamEq {sy sx : ℕ} (g b : SoftBody sy sx) : Prop :=
  g.numRigidBodies = b.numRigidBodies ∧ g.coefficient = b.coefficient ∧
  g.dampening = b.dampening ∧ g.restHeight = b.restHeight ∧ g.restWidth = b.restWidth

end

/-! Scheduler lemmas. -/

/-- The drain loop performs exactly the floor of accumulator/step many
updates and leaves the remainder in the accumulator. -/
theorem drain_eq (step : ℚ) (hstep : 0 < step) :
    ∀ acc : ℚ, 0 ≤ acc →
      drain step acc = ((⌊acc / step⌋).toNat, acc - step * ⌊acc / step⌋) := by
  have hne : step ≠ 0 := ne_of_gt hstep
  have key : ∀ (n : ℕ) (acc : ℚ), 0 ≤ acc → (⌊acc / step⌋).toNat ≤ n →
      drain step acc = ((⌊acc / step⌋).toNat, acc - step * ⌊acc / step⌋) := by
    intro n
    induction n with
    | zero =>
      intro acc hacc hn
      have hq : 0 ≤ acc / step := div_nonneg hacc (le_of_lt hstep)
      have hfl0 : 0 ≤ ⌊acc / step⌋ := Int.floor_nonneg.mpr hq
      have hfl : ⌊acc / step⌋ = 0 := by omega
      have hlt : acc < step := by
        by_contra hge
        push_neg at hge
        have : (1 : ℚ) ≤ acc / step := (one_le_div hstep).mpr hge
        have : (1 : ℤ) ≤ ⌊acc / step⌋ := by
          rw [Int.le_floor]; exact_mod_cast this
        omega
      rw [drain]
      rw [dif_neg (by intro hcontra; exact absurd hcontra.2 (not_le.mpr hlt))]
      rw [hfl]
      simp
    | succ m ih =>
      intro acc hacc hn
      by_cases hge : step ≤ acc
      · have hsub : (acc - step) / step = acc / step - 1 := by
          rw [sub_div, div_self hne]
        have hflsub : ⌊(acc - step) / step⌋ = ⌊acc / step⌋ - 1 := by
          rw [hsub, Int.floor_sub_one]
        have hfl1 : (1 : ℤ) ≤ ⌊acc / step⌋ := by
          rw [Int.le_floor]
          exact_mod_cast (one_le_div hstep).mpr hge
        have hrec := ih (acc - step) (by linarith) (by omega)
        rw [drain, dif_pos ⟨hstep, hge⟩]
        rw [hrec]
        refine Prod.ext ?_ ?_
        · show (⌊(acc - step) / step⌋).toNat + 1 = (⌊acc / step⌋).toNat
          omega
        · show acc - step - step * ⌊(acc - step) / step⌋ = acc - step * ⌊acc / step⌋
          rw [hflsub]
          push_cast
          ring
      · push_neg at hge
        have hq : 0 ≤ acc / step := div_nonneg hacc (le_of_lt hstep)
        have hfl0 : 0 ≤ ⌊acc / step⌋ := Int.floor_nonneg.mpr hq
        have hfllt : ⌊acc / step⌋ = 0 := by
          have : acc / step < 1 := (div_lt_one hstep).mpr hge
          have : ⌊acc / step⌋ < 1 := by
            rw [Int.floor_lt]; exact_mod_cast this
          omega
        rw [drain]
        rw [dif_neg (by intro hcontra; exact absurd hcontra.2 (not_le.mpr hge))]
        rw [hfllt]
        simp
  intro acc hacc
  exact key (⌊acc / step⌋).toNat acc hacc le_rfl

/-- The drained remainder is nonnegative and below one step. -/
theorem drain_remainder_bounds (step acc : ℚ) (hstep : 0 < step) (hacc : 0 ≤ acc) :
    0 ≤ (drain step acc).2 ∧ (drain step acc).2 < step := by
  rw [drain_eq step hstep acc hacc]
  constructor
  · show 0 ≤ acc - step * ⌊acc / step⌋
    have h1 : (⌊acc / step⌋ : ℚ) ≤ acc / step := Int.floor_le _
    have h2 : step * (⌊acc / step⌋ : ℚ) ≤ step * (acc / step) :=
      mul_le_mul_of_nonneg_left h1 (le_of_lt hstep)
    have h3 : step * (acc / step) = acc := by
      field_simp
    linarith
  · show acc - step * ⌊acc / step⌋ < step
    have h1 : acc / step < (⌊acc / step⌋ : ℚ) + 1 := Int.lt_floor_add_one _
    have h2 : step * (acc / step) < step * ((⌊acc / step⌋ : ℚ) + 1) :=
      (mul_lt_mul_left hstep).mpr h1
    have h3 : step * (acc / step) = acc := by
      field_simp
    nlinarith

/-- A frame whose delta does not exceed the step does nothing. -/
theorem checkTime_skip (step : ℚ) (s : Stepper) (t : ℚ)
    (hle : t - s.timebase ≤ step) : checkTime step s t = (s, 0) := by
  simp only [checkTime]
  rw [if_neg (not_lt.mpr hle)]

/-- A frame whose delta exceeds the step drains floor(accumulator/step)
updates, in the closed form frameResult. -/
theorem checkTime_go (step : ℚ) (s : Stepper) (t : ℚ) (hstep : 0 < step)
    (hgt : step < t - s.timebase) (hacc : 0 ≤ s.accumulator) :
    checkTime step s t = frameResult step s t := by
  have hdtc : 0 < (if (0.25 : ℚ) < t - s.timebase then (0.25 : ℚ) else t - s.timebase) := by
    split
    · norm_num
    · linarith
  have hA : 0 ≤ s.accumulator +
      (if (0.25 : ℚ) < t - s.timebase then (0.25 : ℚ) else t - s.timebase) := by
    linarith
  simp only [checkTime, frameResult]
  rw [if_pos hgt, drain_eq step hstep _ hA]

/-- Floor of a quotient of rationals, certified by two inequalities. -/
theorem floor_div_eq {a b : ℚ} (n : ℤ) (hb : 0 < b) (h1 : (n : ℚ) * b ≤ a)
    (h2 : a < (n + 1 : ℚ) * b) : ⌊a / b⌋ = n := by
  rw [Int.floor_eq_iff]
  constructor
  · rw [le_div_iff₀ hb]
    exact h1
  · rw [div_lt_iff₀ hb]
    linarith

/-- checkTime keeps the accumulator invariant 0 <= accumulator < step. -/
theorem checkTime_inv (step : ℚ) (hstep : 0 < step) (s : Stepper) (t : ℚ)
    (h0 : 0 ≤ s.accumulator) (h1 : s.accumulator < step) :
    0 ≤ (checkTime step s t).1.accumulator ∧ (checkTime step s t).1.accumulator < step := by
  unfold checkTime
  by_cases hdt : step < t - s.timebase
  · rw [if_pos hdt]
    have hdtc : 0 < (if (0.25 : ℚ) < t - s.timebase then (0.25 : ℚ) else t - s.timebase) := by
      by_cases hc : (0.25 : ℚ) < t - s.timebase
      · rw [if_pos hc]; norm_num
      · rw [if_neg hc]; linarith
    have hA : 0 ≤ s.accumulator +
        (if (0.25 : ℚ) < t - s.timebase then (0.25 : ℚ) else t - s.timebase) := by
      linarith
    exact drain_remainder_bounds step _ hstep hA
  · rw [if_neg hdt]
    exact ⟨h0, h1⟩

/-- Every reachable scheduler state satisfies 0 <= accumulator < step. -/
theorem reachable_inv (step : ℚ) (hstep : 0 < step) (s : Stepper)
    (hs : Reachable step s) : 0 ≤ s.accumulator ∧ s.accumulator < step := by
  obtain ⟨ts, hts⟩ := hs
  subst hts
  have key : ∀ (l : List ℚ) (g : Stepper), 0 ≤ g.accumulator → g.accumulator < step →
      0 ≤ (runFrames step g l).1.accumulator ∧ (runFrames step g l).1.accumulator < step := by
    intro l
    induction l with
    | nil => intro g hg0 hg1; exact ⟨hg0, hg1⟩
    | cons t ts ih =>
      intro g hg0 hg1
      have h := checkTime_inv step hstep g t hg0 hg1
      exact ih (checkTime step g t).1 h.1 h.2
  exact key ts stepperInit (le_refl 0) hstep

/-! Concrete scheduler runs used by the claims about checkTime. -/

theorem checkTime_frame1 : checkTime (1/100) stepperInit (1/200) = (stepperInit, 0) :=
  checkTime_skip _ _ _ (by norm_num [stepperInit])

theorem checkTime_frame2 : checkTime (1/100) stepperInit (11/1000) =
    ({ timebase := 11/1000, accumulator := 1/1000 }, 1) := by
  rw [checkTime_go (1/100) stepperInit (11/1000) (by norm_num)
    (by norm_num [stepperInit]) (by norm_num [stepperInit])]
  unfold frameResult
  norm_num [stepperInit]

theorem checkTime_frame3 :
    checkTime (1/100) ({ timebase := 11/1000, accumulator := 1/1000 }) (1/25) =
      ({ timebase := 1/25, accumulator := 0 }, 3) := by
  rw [checkTime_go (1/100) _ (1/25) (by norm_num) (by norm_num) (by norm_num)]
  unfold frameResult
  norm_num
  decide

theorem runFrames_drain_run : runFrames (1/100) stepperInit [1/200, 11/1000, 1/25] =
    ({ timebase := 1/25, accumulator := 0 }, 4) := by
  simp only [runFrames]
  rw [checkTime_frame1]
  dsimp only
  rw [checkTime_frame2]
  dsimp only
  rw [checkTime_frame3]
  rfl

theorem checkTime_jump_setup : checkTime physicsStep stepperInit (7/500) =
    ({ timebase := 7/500, accumulator := 1/500 }, 1) := by
  rw [checkTime_go physicsStep stepperInit (7/500) (by norm_num [physicsStep])
    (by norm_num [physicsStep, stepperInit]) (by norm_num [stepperInit])]
  unfold frameResult
  norm_num [stepperInit, physicsStep]

theorem checkTime_jump_eval :
    (checkTime physicsStep ({ timebase := 7/500, accumulator := 1/500 }) (7/500 + 10)).2 = 21 := by
  rw [checkTime_go physicsStep _ (7/500 + 10) (by norm_num [physicsStep])
    (by norm_num [physicsStep]) (by norm_num)]
  unfold frameResult
  norm_num [physicsStep]
  decide

theorem checkTimeClaimed_at_step : (checkTimeClaimed (1/100) stepperInit (1/100)).2 = 1 := by
  simp only [checkTimeClaimed, stepperInit]
  rw [if_pos (by norm_num), if_neg (by norm_num)]
  rw [drain_eq (1/100) (by norm_num) _ (by norm_num)]
  norm_num

/-! Characterization of the sequential force-accumulation pass. -/

theorem cellSprings_congr {sy sx : ℕ} (g b : SoftBody sy sx)
    (hp : ParamEq g b) (hk : ∀ i j, KinEq (g.bodies i j) (b.bodies i j))
    (i : Fin sy) (j : Fin sx) : cellSprings g i j = cellSprings b i j := by
  obtain ⟨-, hco, hda, hrh, hrw⟩ := hp
  unfold cellSprings
  have hpos : ∀ (a : Fin sy) (c : Fin sx), (g.bodies a c).position = (b.bodies a c).position :=
    fun a c => (hk a c).2.2.1
  have hvel : ∀ (a : Fin sy) (c : Fin sx), (g.bodies a c).velocity = (b.bodies a c).velocity :=
    fun a c => (hk a c).2.2.2.1
  split_ifs <;> simp [hco, hda, hrh, hrw, hpos, hvel]

theorem cellDelta_congr {sy sx : ℕ} (ext : Vec3) (g b : SoftBody sy sx)
    (hp : ParamEq g b) (hk : ∀ i j, KinEq (g.bodies i j) (b.bodies i j))
    (i : Fin sy) (j : Fin sx) : cellDelta ext g i j = cellDelta ext b i j := by
  unfold cellDelta
  rw [cellSprings_congr g b hp hk]

theorem accumulateCell_params {sy sx : ℕ} (ext : Vec3) (g : SoftBody sy sx)
    (c : Fin sy × Fin sx) : ParamEq (accumulateCell ext g c) g :=
  ⟨rfl, rfl, rfl, rfl, rfl⟩

theorem accumulateCell_bodies {sy sx : ℕ} (ext : Vec3) (g : SoftBody sy sx)
    (c : Fin sy × Fin sx) (i : Fin sy) (j : Fin sx) :
    (accumulateCell ext g c).bodies i j =
      if i = c.1 ∧ j = c.2 then
        { g.bodies i j with netForce := (g.bodies i j).netForce + cellDelta ext g c.1 c.2 }
      else g.bodies i j := rfl

theorem accumulateCell_kin {sy sx : ℕ} (ext : Vec3) (g : SoftBody sy sx)
    (c : Fin sy × Fin sx) (i : Fin sy) (j : Fin sx) :
    KinEq ((accumulateCell ext g c).bodies i j) (g.bodies i j) := by
  rw [accumulateCell_bodies]
  by_cases h : i = c.1 ∧ j = c.2
  · rw [if_pos h]
    exact ⟨rfl, rfl, rfl, rfl, rfl, rfl⟩
  · rw [if_neg h]
    exact ⟨rfl, rfl, rfl, rfl, rfl, rfl⟩

theorem paramEq_refl {sy sx : ℕ} (b : SoftBody sy sx) : ParamEq b b :=
  ⟨rfl, rfl, rfl, rfl, rfl⟩

theorem paramEq_trans {sy sx : ℕ} {a b c : SoftBody sy sx}
    (h1 : ParamEq a b) (h2 : ParamEq b c) : ParamEq a c := by
  obtain ⟨x1, x2, x3, x4, x5⟩ := h1
  obtain ⟨y1, y2, y3, y4, y5⟩ := h2
  exact ⟨x1.trans y1, x2.trans y2, x3.trans y3, x4.trans y4, x5.trans y5⟩

theorem kinEq_refl (a : RigidBody) : KinEq a a :=
  ⟨rfl, rfl, rfl, rfl, rfl, rfl⟩

theorem kinEq_trans {a b c : RigidBody} (h1 : KinEq a b) (h2 : KinEq b c) :
    KinEq a c := by
  obtain ⟨x1, x2, x3, x4, x5, x6⟩ := h1
  obtain ⟨y1, y2, y3, y4, y5, y6⟩ := h2
  exact ⟨x1.trans y1, x2.trans y2, x3.trans y3, x4.trans y4, x5.trans y5, x6.trans y6⟩

/-- Folding the loop body over a duplicate-free list of cells adds to each
visited cell exactly the delta computed from the original grid, and leaves
unvisited cells alone: the loop writes only the current node's netForce
and reads only data the pass never changes. -/
theorem foldl_accumulate {sy sx : ℕ} (ext : Vec3) (b : SoftBody sy sx) :
    ∀ (cs : List (Fin sy × Fin sx)) (g : SoftBody sy sx), cs.Nodup →
      ParamEq g b → (∀ i j, KinEq (g.bodies i j) (b.bodies i j)) →
      ParamEq (List.foldl (accumulateCell ext) g cs) g ∧
      ∀ (i : Fin sy) (j : Fin sx),
        (List.foldl (accumulateCell ext) g cs).bodies i j =
          if (i, j) ∈ cs then
            { g.bodies i j with
              netForce := (g.bodies i j).netForce + cellDelta ext b i j }
          else g.bodies i j := by
  intro cs
  induction cs with
  | nil =>
    intro g hnd hp hk
    refine ⟨paramEq_refl g, fun i j => ?_⟩
    simp
  | cons c0 cs ih =>
    intro g hnd hp hk
    have hnd2 : cs.Nodup := hnd.of_cons
    have hnotmem : c0 ∉ cs := by
      intro hmem
      exact (List.nodup_cons.mp hnd).1 hmem
    set g1 := accumulateCell ext g c0 with hg1
    have hp1 : ParamEq g1 b := paramEq_trans (accumulateCell_params ext g c0) hp
    have hk1 : ∀ i j, KinEq (g1.bodies i j) (b.bodies i j) :=
      fun i j => kinEq_trans (accumulateCell_kin ext g c0 i j) (hk i j)
    obtain ⟨ihp, ihb⟩ := ih g1 hnd2 hp1 hk1
    have hfold : List.foldl (accumulateCell ext) g (c0 :: cs) =
        List.foldl (accumulateCell ext) g1 cs := rfl
    refine ⟨by rw [hfold]; exact paramEq_trans ihp (accumulateCell_params ext g c0), ?_⟩
    intro i j
    rw [hfold, ihb i j]
    have hdelta : cellDelta ext g c0.1 c0.2 = cellDelta ext b c0.1 c0.2 :=
      cellDelta_congr ext g b hp hk c0.1 c0.2
    by_cases hc : (i, j) = c0
    · have hij1 : i = c0.1 := by rw [← hc]
      have hij2 : j = c0.2 := by rw [← hc]
      have hmem : (i, j) ∈ c0 :: cs := by simp [hc]
      have hnmem : (i, j) ∉ cs := by rw [hc]; exact hnotmem
      rw [if_neg hnmem, if_pos hmem]
      show g1.bodies i j = _
      rw [hg1]
      unfold accumulateCell
      simp only [hij1, hij2, and_self, if_true]
      rw [hdelta, ← hij1, ← hij2]
    · have hg1b : g1.bodies i j = g.bodies i j := by
        rw [hg1]
        unfold accumulateCell
        have : ¬(i = c0.1 ∧ j = c0.2) := by
          intro hcontra
          exact hc (Prod.ext hcontra.1 hcontra.2)
        simp only [this, if_false]
      by_cases hmem : (i, j) ∈ cs
      · rw [if_pos hmem, if_pos (List.mem_cons_of_mem c0 hmem), hg1b]
      · have : (i, j) ∉ c0 :: cs := by
          simp only [List.mem_cons, not_or]
          exact ⟨hc, hmem⟩
        rw [if_neg hmem, if_neg this, hg1b]

theorem cellList_nodup (sy sx : ℕ) : (cellList sy sx).Nodup := by
  unfold cellList
  rw [List.nodup_flatMap]
  constructor
  · intro i _
    refine List.Nodup.map ?_ (List.nodup_finRange sx)
    intro a b hab
    exact congrArg Prod.snd hab
  · refine List.Pairwise.imp ?_ (List.nodup_finRange sy)
    intro a b hab x hxa hxb
    obtain ⟨ja, -, hja⟩ := List.mem_map.mp hxa
    obtain ⟨jb, -, hjb⟩ := List.mem_map.mp hxb
    have h1 : a = x.1 := congrArg Prod.fst hja
    have h2 : b = x.1 := congrArg Prod.fst hjb
    exact hab (h1.trans h2.symm)

theorem mem_cellList {sy sx : ℕ} (i : Fin sy) (j : Fin sx) :
    (i, j) ∈ cellList sy sx := by
  unfold cellList
  rw [List.mem_flatMap]
  exact ⟨i, List.mem_finRange i, List.mem_map.mpr ⟨j, List.mem_finRange j, rfl⟩⟩

/-- Pointwise description of the whole force pass: every node ends with
its old netForce plus the sum of its incident spring contributions plus
the external force when it sits on the bottom row. -/
theorem forcePass_bodies {sy sx : ℕ} (ext : Vec3) (b : SoftBody sy sx)
    (i : Fin sy) (j : Fin sx) :
    (forcePass ext b).bodies i j =
      { b.bodies i j with
        netForce := (b.bodies i j).netForce + cellDelta ext b i j } := by
  unfold forcePass
  obtain ⟨-, hb⟩ := foldl_accumulate ext b (cellList sy sx) b (cellList_nodup sy sx)
    (paramEq_refl b) (fun a c => kinEq_refl (b.bodies a c))
  rw [hb i j, if_pos (mem_cellList i j)]

theorem forcePass_params {sy sx : ℕ} (ext : Vec3) (b : SoftBody sy sx) :
    ParamEq (forcePass ext b) b := by
  unfold forcePass
  exact (foldl_accumulate ext b (cellList sy sx) b (cellList_nodup sy sx)
    (paramEq_refl b) (fun a c => kinEq_refl (b.bodies a c))).1

/-! Vector lemmas. -/

theorem vec3_zero : vec3 0 0 0 = (0 : Vec3) := rfl

theorem glmLength_axis_x (c : ℝ) : glmLength (vec3 c 0 0) = |c| := by
  show Real.sqrt (c * c + 0 * 0 + 0 * 0) = |c|
  rw [show c * c + (0:ℝ) * 0 + (0:ℝ) * 0 = c * c by ring]
  exact Real.sqrt_mul_self_eq_abs c

theorem glmLength_axis_y (c : ℝ) : glmLength (vec3 0 c 0) = |c| := by
  show Real.sqrt (0 * 0 + c * c + 0 * 0) = |c|
  rw [show (0:ℝ) * 0 + c * c + (0:ℝ) * 0 = c * c by ring]
  exact Real.sqrt_mul_self_eq_abs c

theorem glmLength_ne_zero {v : Vec3} (hv : v ≠ 0) : glmLength v ≠ 0 := by
  intro h
  apply hv
  unfold glmLength at h
  rw [Real.sqrt_eq_zero'] at h
  have h1 : v.1 * v.1 = 0 :=
    le_antisymm (by nlinarith [mul_self_nonneg v.2.1, mul_self_nonneg v.2.2]) (mul_self_nonneg v.1)
  have h2 : v.2.1 * v.2.1 = 0 :=
    le_antisymm (by nlinarith [mul_self_nonneg v.1, mul_self_nonneg v.2.2]) (mul_self_nonneg v.2.1)
  have h3 : v.2.2 * v.2.2 = 0 :=
    le_antisymm (by nlinarith [mul_self_nonneg v.1, mul_self_nonneg v.2.1]) (mul_self_nonneg v.2.2)
  have e : v = (v.1, v.2.1, v.2.2) := rfl
  rw [e, mul_self_eq_zero.mp h1, mul_self_eq_zero.mp h2, mul_self_eq_zero.mp h3]
  rfl

theorem springContrib_rest (coeff damp rest : ℝ) (d : Vec3)
    (hlen : glmLength d = rest) :
    springContrib coeff damp rest d (vec3 0 0 0) = 0 := by
  unfold springContrib
  rw [hlen, sub_self, mul_zero, zero_smul, vec3_zero, smul_zero, sub_zero]

/-! Claim theorems. -/

/-- C2: IntegrateLinear computes, in order, the acceleration from the
pre-update net force, a second-order position update, a velocity update
from that same acceleration plus the impulse divided by mass, and finally
zeroes both accumulators, so nothing carries over to the next step. -/
theorem integrateLinear_spec (dt : ℝ) (b : RigidBody) :
    IntegrateLinear dt b =
      { mass := b.mass
        inverseMass := b.inverseMass
        position := b.position +
          (dt • b.velocity + ((1 / 2 : ℝ) * dt ^ 2) • (b.inverseMass • b.netForce))
        velocity := b.velocity +
          (dt • (b.inverseMass • b.netForce) + b.inverseMass • b.netImpulse)
        acceleration := b.inverseMass • b.netForce
        netForce := 0
        netImpulse := 0 } := rfl

/-- C6 counterexample: the 2 by 2 grid from a unit square is not centered
at the origin; its centroid is (-1/4, -1/4, 0), because the constructor
anchors the first node at (-width/2, -height/2) and the last node falls
one spacing short of (width/2, height/2). -/
theorem lattice_layout_counterexample :
    latticeCentroid (mkSoftBody 1 1 2 2 25 (1/2)) ≠ 0 := by
  intro hcl
  have h1 := congrArg Prod.fst hcl
  simp only [latticeCentroid, Prod.fst_sum, Prod.smul_fst, Fin.sum_univ_two,
    mkSoftBody, RigidBody.make, vec3, Fin.val_zero, Fin.val_one] at h1
  norm_num at h1

/-- C6 amended: the constructor creates subX*subY nodes on a regular
lattice with spacings width/subX and height/subY whose node (i, j) sits at
(-width/2 + (width/subX) j, -height/2 + (height/subY) i, 0) - a lattice
anchored at the corner (-width/2, -height/2), not centered at the origin -
each node with inverse mass 1, zero initial velocity and acceleration, and
restWidth = width/subX, restHeight = height/subY. -/
theorem lattice_layout_amended (width height coeff damp : ℝ) (subX subY : ℕ)
    (i : Fin subY) (j : Fin subX) :
    (mkSoftBody width height subX subY coeff damp).numRigidBodies = subX * subY ∧
    (mkSoftBody width height subX subY coeff damp).restWidth = width / subX ∧
    (mkSoftBody width height subX subY coeff damp).restHeight = height / subY ∧
    ((mkSoftBody width height subX subY coeff damp).bodies i j).position =
      vec3 (-width / 2 + width / subX * j.val) (-height / 2 + height / subY * i.val) 0 ∧
    ((mkSoftBody width height subX subY coeff damp).bodies i j).velocity = vec3 0 0 0 ∧
    ((mkSoftBody width height subX subY coeff damp).bodies i j).acceleration = vec3 0 0 0 ∧
    ((mkSoftBody width height subX subY coeff damp).bodies i j).mass = 1 ∧
    ((mkSoftBody width height subX subY coeff damp).bodies i j).inverseMass = 1 := by
  refine ⟨rfl, rfl, rfl, rfl, rfl, rfl, rfl, ?_⟩
  show (if (1 : ℝ) = 0 then 0 else 1 / 1) = 1
  rw [if_neg one_ne_zero]
  norm_num

/-- C10 counterexample: the constructor performs no validation; with zero
subdivision counts it happily returns a grid whose node count is zero, so
the claimed fail-fast rejection does not happen. -/
theorem construction_no_validation_counterexample : ¬ ClaimFailFast := by
  intro hcl
  exact hcl 1 1 25 (1/2) rfl

/-- C10 amended: construction never rejects its input; every
configuration, including non-positive subdivision counts and zero
extents, produces a grid with numRigidBodies = subX*subY (a zero-node
lattice when a count is zero) and rest lengths computed by the divisions
width/subX and height/subY (divisions by zero in the C++ source). -/
theorem construction_no_validation_amended (width height coeff damp : ℝ)
    (subX subY : ℕ) :
    (mkSoftBody width height subX subY coeff damp).numRigidBodies = subX * subY ∧
    (mkSoftBody width height subX subY coeff damp).restWidth = width / subX ∧
    (mkSoftBody width height subX subY coeff damp).restHeight = height / subY :=
  ⟨rfl, rfl, rfl⟩

/-- C7: the external force is along Y exactly when the modifier is held
and along X otherwise; the right (negative) button, evaluated second,
wins over the left (+2) button, and no button held yields zero; and the
force pass adds this vector to the netForce of exactly the bottom-row
nodes (i = 0) and of no other node. -/
theorem external_force_selection_and_anchor_row :
    (∀ lshift lmb rmb : Bool,
      externalForceOf lshift lmb rmb =
        (if lshift then vec3 0 (if rmb then -2 else if lmb then 2 else 0) 0
         else vec3 (if rmb then -2 else if lmb then 2 else 0) 0 0)) ∧
    (∀ (sy sx : ℕ) (ext : Vec3) (b : SoftBody sy sx) (i : Fin sy) (j : Fin sx),
      ((forcePass ext b).bodies i j).netForce =
        ((forcePass (vec3 0 0 0) b).bodies i j).netForce +
          (if i.val = 0 then ext else 0)) := by
  constructor
  · intro lshift lmb rmb
    cases lshift <;> cases lmb <;> cases rmb <;> rfl
  · intro sy sx ext b i j
    rw [forcePass_bodies, forcePass_bodies]
    show (b.bodies i j).netForce + cellDelta ext b i j =
      (b.bodies i j).netForce + cellDelta (vec3 0 0 0) b i j + (if i.val = 0 then ext else 0)
    unfold cellDelta
    have h0 : (if i.val = 0 then vec3 0 0 0 else (0 : Vec3)) = 0 := by
      split <;> rfl
    rw [h0]
    abel

/-- C8: inverseMass is zero exactly for construction mass zero, otherwise
inverseMass * mass = 1; the masses of the grid nodes are nonnegative (all
are 1); and one whole update step changes neither mass nor inverseMass of
any node. -/
theorem mass_inverseMass_invariant :
    (∀ (pos vel acc : Vec3) (m : ℝ),
      ((RigidBody.make pos vel acc m).inverseMass = 0 ↔ m = 0)) ∧
    (∀ (pos vel acc : Vec3) (m : ℝ), m ≠ 0 →
      (RigidBody.make pos vel acc m).inverseMass * (RigidBody.make pos vel acc m).mass = 1) ∧
    (∀ (width height coeff damp : ℝ) (subX subY : ℕ) (i : Fin subY) (j : Fin subX),
      0 ≤ ((mkSoftBody width height subX subY coeff damp).bodies i j).mass) ∧
    (∀ (sy sx : ℕ) (lshift lmb rmb : Bool) (dt : ℝ) (b : SoftBody sy sx)
        (i : Fin sy) (j : Fin sx),
      ((update lshift lmb rmb dt b).bodies i j).mass = (b.bodies i j).mass ∧
      ((update lshift lmb rmb dt b).bodies i j).inverseMass = (b.bodies i j).inverseMass) := by
  refine ⟨?_, ?_, ?_, ?_⟩
  · intro pos vel acc m
    show (if m = 0 then 0 else 1 / m) = 0 ↔ m = 0
    rcases eq_or_ne m 0 with hm | hm
    · rw [if_pos hm]
      exact ⟨fun _ => hm, fun _ => rfl⟩
    · rw [if_neg hm]
      exact ⟨fun hc => absurd hc (one_div_ne_zero hm), fun hc => absurd hc hm⟩
  · intro pos vel acc m hm
    show (if m = 0 then 0 else 1 / m) * m = 1
    rw [if_neg hm]
    exact one_div_mul_cancel hm
  · intro width height coeff damp subX subY i j
    show (0 : ℝ) ≤ 1
    norm_num
  · intro sy sx lshift lmb rmb dt b i j
    have hF := forcePass_bodies (externalForceOf lshift lmb rmb) b i j
    constructor
    · show (IntegrateLinear dt ((forcePass (externalForceOf lshift lmb rmb) b).bodies i j)).mass =
        (b.bodies i j).mass
      rw [hF]
      rfl
    · show (IntegrateLinear dt
          ((forcePass (externalForceOf lshift lmb rmb) b).bodies i j)).inverseMass =
        (b.bodies i j).inverseMass
      rw [hF]
      rfl

/-- C1: the force pass gives every node its old netForce plus the listed
spring contributions - one per in-bounds neighbor, each of the form
coefficient * (|d| - restLen) * normalize d - dampening * velocity with
restHeight for vertical and restWidth for horizontal neighbors, see
cellSprings - plus the external force on the bottom row; and on an n-by-n
grid with n at least 2 the number of spring contributions is 2 at the
corners, 3 on the non-corner edges, and 4 in the interior. -/
theorem forcePass_spring_contributions {sy sx : ℕ} (b : SoftBody sy sx) (ext : Vec3)
    (i : Fin sy) (j : Fin sx) (hsq : sx = sy) (h2 : 2 ≤ sy) :
    ((forcePass ext b).bodies i j).netForce =
      ((b.bodies i j).netForce + (cellSprings b i j).sum) + (if i.val = 0 then ext else 0) ∧
    (cellSprings b i j).length =
      (if (i.val = 0 ∨ i.val = sy - 1) ∧ (j.val = 0 ∨ j.val = sx - 1) then 2
       else if (i.val = 0 ∨ i.val = sy - 1) ∨ (j.val = 0 ∨ j.val = sx - 1) then 3
       else 4) := by
  constructor
  · rw [forcePass_bodies]
    show (b.bodies i j).netForce + cellDelta ext b i j = _
    unfold cellDelta
    rw [add_assoc]
  · have hlen : (cellSprings b i j).length =
        (if 0 < i.val then 1 else 0) + ((if i.val < sy - 1 then 1 else 0) +
          ((if 0 < j.val then 1 else 0) + (if j.val < sx - 1 then 1 else 0))) := by
      unfold cellSprings
      split_ifs <;> simp
    rw [hlen]
    have hi := i.isLt
    have hj := j.isLt
    split_ifs <;> omega

/-- Witness for C1: the bottom-left node of the 2 by 2 unit grid, where
the square-grid and size hypotheses hold concretely. -/
theorem forcePass_spring_contributions_witness :
    ((2 : ℕ) = 2 ∧ 2 ≤ 2) ∧
    (((forcePass (vec3 0 0 0) (mkSoftBody 1 1 2 2 25 (1/2))).bodies 0 0).netForce =
      (((mkSoftBody 1 1 2 2 25 (1/2)).bodies 0 0).netForce +
        (cellSprings (mkSoftBody 1 1 2 2 25 (1/2)) (0 : Fin 2) (0 : Fin 2)).sum) +
        (if (0 : Fin 2).val = 0 then vec3 0 0 0 else 0) ∧
     (cellSprings (mkSoftBody 1 1 2 2 25 (1/2)) (0 : Fin 2) (0 : Fin 2)).length =
      (if ((0 : Fin 2).val = 0 ∨ (0 : Fin 2).val = 2 - 1) ∧
          ((0 : Fin 2).val = 0 ∨ (0 : Fin 2).val = 2 - 1) then 2
       else if ((0 : Fin 2).val = 0 ∨ (0 : Fin 2).val = 2 - 1) ∨
          ((0 : Fin 2).val = 0 ∨ (0 : Fin 2).val = 2 - 1) then 3
       else 4)) :=
  ⟨⟨rfl, by norm_num⟩,
   forcePass_spring_contributions (mkSoftBody 1 1 2 2 25 (1/2)) (vec3 0 0 0)
     (0 : Fin 2) (0 : Fin 2) rfl (by norm_num)⟩

/-! The rest configuration: displacements, zero forces, fixed point. -/

theorem mk_sub_up {sx sy : ℕ} (w h k d : ℝ) (i : Fin sy) (j : Fin sx)
    (hcond : 0 < i.val) :
    ((mkSoftBody w h sx sy k d).bodies (prevIdx i hcond) j).position -
      ((mkSoftBody w h sx sy k d).bodies i j).position = vec3 0 (-(h / (sy : ℝ))) 0 := by
  show ((-w / 2 + w / (sx : ℝ) * (j.val : ℝ), -h / 2 + h / (sy : ℝ) * ((i.val - 1 : ℕ) : ℝ), 0) : Vec3) -
      (-w / 2 + w / (sx : ℝ) * (j.val : ℝ), -h / 2 + h / (sy : ℝ) * ((i.val : ℕ) : ℝ), 0) =
    (0, -(h / (sy : ℝ)), 0)
  simp only [Prod.mk_sub_mk, Prod.mk.injEq]
  refine ⟨by ring, ?_, by ring⟩
  rw [Nat.cast_sub (by omega : 1 ≤ i.val)]
  push_cast
  ring

theorem mk_sub_down {sx sy : ℕ} (w h k d : ℝ) (i : Fin sy) (j : Fin sx)
    (hcond : i.val < sy - 1) :
    ((mkSoftBody w h sx sy k d).bodies (nextIdx i hcond) j).position -
      ((mkSoftBody w h sx sy k d).bodies i j).position = vec3 0 (h / (sy : ℝ)) 0 := by
  show ((-w / 2 + w / (sx : ℝ) * (j.val : ℝ), -h / 2 + h / (sy : ℝ) * ((i.val + 1 : ℕ) : ℝ), 0) : Vec3) -
      (-w / 2 + w / (sx : ℝ) * (j.val : ℝ), -h / 2 + h / (sy : ℝ) * ((i.val : ℕ) : ℝ), 0) =
    (0, h / (sy : ℝ), 0)
  simp only [Prod.mk_sub_mk, Prod.mk.injEq]
  refine ⟨by ring, ?_, by ring⟩
  push_cast
  ring

theorem mk_sub_left {sx sy : ℕ} (w h k d : ℝ) (i : Fin sy) (j : Fin sx)
    (hcond : 0 < j.val) :
    ((mkSoftBody w h sx sy k d).bodies i (prevIdx j hcond)).position -
      ((mkSoftBody w h sx sy k d).bodies i j).position = vec3 (-(w / (sx : ℝ))) 0 0 := by
  show ((-w / 2 + w / (sx : ℝ) * ((j.val - 1 : ℕ) : ℝ), -h / 2 + h / (sy : ℝ) * ((i.val : ℕ) : ℝ), 0) : Vec3) -
      (-w / 2 + w / (sx : ℝ) * ((j.val : ℕ) : ℝ), -h / 2 + h / (sy : ℝ) * ((i.val : ℕ) : ℝ), 0) =
    (-(w / (sx : ℝ)), 0, 0)
  simp only [Prod.mk_sub_mk, Prod.mk.injEq]
  refine ⟨?_, by ring, by ring⟩
  rw [Nat.cast_sub (by omega : 1 ≤ j.val)]
  push_cast
  ring

theorem mk_sub_right {sx sy : ℕ} (w h k d : ℝ) (i : Fin sy) (j : Fin sx)
    (hcond : j.val < sx - 1) :
    ((mkSoftBody w h sx sy k d).bodies i (nextIdx j hcond)).position -
      ((mkSoftBody w h sx sy k d).bodies i j).position = vec3 (w / (sx : ℝ)) 0 0 := by
  show ((-w / 2 + w / (sx : ℝ) * ((j.val + 1 : ℕ) : ℝ), -h / 2 + h / (sy : ℝ) * ((i.val : ℕ) : ℝ), 0) : Vec3) -
      (-w / 2 + w / (sx : ℝ) * ((j.val : ℕ) : ℝ), -h / 2 + h / (sy : ℝ) * ((i.val : ℕ) : ℝ), 0) =
    (w / (sx : ℝ), 0, 0)
  simp only [Prod.mk_sub_mk, Prod.mk.injEq]
  refine ⟨?_, by ring, by ring⟩
  push_cast
  ring

theorem rest_cellSprings_zero {sx sy : ℕ} (w h k d : ℝ) (hw : 0 ≤ w) (hh : 0 ≤ h)
    (i : Fin sy) (j : Fin sx) :
    ∀ x ∈ cellSprings (mkSoftBody w h sx sy k d) i j, x = 0 := by
  intro x hx
  have hvel : ((mkSoftBody w h sx sy k d).bodies i j).velocity = vec3 0 0 0 := rfl
  have hlenV : glmLength (vec3 0 (h / (sy : ℝ)) 0) = (mkSoftBody w h sx sy k d).restHeight := by
    rw [glmLength_axis_y, abs_of_nonneg (div_nonneg hh (Nat.cast_nonneg sy))]
    rfl
  have hlenVn : glmLength (vec3 0 (-(h / (sy : ℝ))) 0) = (mkSoftBody w h sx sy k d).restHeight := by
    rw [glmLength_axis_y, abs_neg, abs_of_nonneg (div_nonneg hh (Nat.cast_nonneg sy))]
    rfl
  have hlenH : glmLength (vec3 (w / (sx : ℝ)) 0 0) = (mkSoftBody w h sx sy k d).restWidth := by
    rw [glmLength_axis_x, abs_of_nonneg (div_nonneg hw (Nat.cast_nonneg sx))]
    rfl
  have hlenHn : glmLength (vec3 (-(w / (sx : ℝ))) 0 0) = (mkSoftBody w h sx sy k d).restWidth := by
    rw [glmLength_axis_x, abs_neg, abs_of_nonneg (div_nonneg hw (Nat.cast_nonneg sx))]
    rfl
  unfold cellSprings at hx
  simp only [List.mem_append] at hx
  rcases hx with ((h1 | h2) | h3) | h4
  · by_cases hcond : 0 < i.val
    · rw [dif_pos hcond, List.mem_singleton] at h1
      subst h1
      rw [mk_sub_up w h k d i j hcond, hvel]
      exact springContrib_rest _ _ _ _ hlenVn
    · rw [dif_neg hcond] at h1
      simp at h1
  · by_cases hcond : i.val < sy - 1
    · rw [dif_pos hcond, List.mem_singleton] at h2
      subst h2
      rw [mk_sub_down w h k d i j hcond, hvel]
      exact springContrib_rest _ _ _ _ hlenV
    · rw [dif_neg hcond] at h2
      simp at h2
  · by_cases hcond : 0 < j.val
    · rw [dif_pos hcond, List.mem_singleton] at h3
      subst h3
      rw [mk_sub_left w h k d i j hcond, hvel]
      exact springContrib_rest _ _ _ _ hlenHn
    · rw [dif_neg hcond] at h3
      simp at h3
  · by_cases hcond : j.val < sx - 1
    · rw [dif_pos hcond, List.mem_singleton] at h4
      subst h4
      rw [mk_sub_right w h k d i j hcond, hvel]
      exact springContrib_rest _ _ _ _ hlenH
    · rw [dif_neg hcond] at h4
      simp at h4

theorem IntegrateLinear_static (dt : ℝ) (r : RigidBody) (hv : r.velocity = 0)
    (ha : r.acceleration = 0) (hf : r.netForce = 0) (hi : r.netImpulse = 0) :
    IntegrateLinear dt r = r := by
  simp only [IntegrateLinear]
  rw [hv, hf, hi]
  refine RigidBody.ext rfl rfl ?_ ?_ ?_ ?_ ?_ <;>
    simp [vec3_zero, ha, hv, hf, hi]

theorem update_rest_fixed (w h k d dt : ℝ) (sx sy : ℕ) (hw : 0 ≤ w) (hh : 0 ≤ h) :
    update false false false dt (mkSoftBody w h sx sy k d) = mkSoftBody w h sx sy k d := by
  have hdelta : ∀ (i : Fin sy) (j : Fin sx),
      cellDelta (externalForceOf false false false) (mkSoftBody w h sx sy k d) i j = 0 := by
    intro i j
    unfold cellDelta
    rw [List.sum_eq_zero (rest_cellSprings_zero w h k d hw hh i j)]
    have hextz : (if i.val = 0 then externalForceOf false false false else 0) = (0 : Vec3) := by
      split
      · rfl
      · rfl
    rw [hextz, add_zero]
  have hforce : forcePass (externalForceOf false false false) (mkSoftBody w h sx sy k d) =
      mkSoftBody w h sx sy k d := by
    obtain ⟨p1, p2, p3, p4, p5⟩ :=
      forcePass_params (externalForceOf false false false) (mkSoftBody w h sx sy k d)
    refine SoftBody.ext p1 p4 p5 p2 p3 ?_
    funext i j
    rw [forcePass_bodies, hdelta, add_zero]
  have hint : integratePass dt (mkSoftBody w h sx sy k d) = mkSoftBody w h sx sy k d := by
    refine SoftBody.ext rfl rfl rfl rfl rfl ?_
    funext i j
    show IntegrateLinear dt ((mkSoftBody w h sx sy k d).bodies i j) =
      (mkSoftBody w h sx sy k d).bodies i j
    exact IntegrateLinear_static dt _ rfl rfl rfl rfl
  show integratePass dt (forcePass (externalForceOf false false false)
    (mkSoftBody w h sx sy k d)) = mkSoftBody w h sx sy k d
  rw [hforce, hint]

/-- C5: a grid built at exact rest spacing, with zero velocities and no
held input (so zero external force), is a fixed point of the physics
step: after any number of updates every position and velocity equals its
initial value, and all velocities are zero. -/
theorem rest_config_fixed_point (w h k d dt : ℝ) (sx sy n : ℕ)
    (hw : 0 ≤ w) (hh : 0 ≤ h) (i : Fin sy) (j : Fin sx) :
    ((((update false false false dt)^[n]) (mkSoftBody w h sx sy k d)).bodies i j).position =
      ((mkSoftBody w h sx sy k d).bodies i j).position ∧
    ((((update false false false dt)^[n]) (mkSoftBody w h sx sy k d)).bodies i j).velocity =
      ((mkSoftBody w h sx sy k d).bodies i j).velocity ∧
    ((mkSoftBody w h sx sy k d).bodies i j).velocity = vec3 0 0 0 := by
  rw [Function.iterate_fixed (update_rest_fixed w h k d dt sx sy hw hh) n]
  exact ⟨rfl, rfl, rfl⟩

/-- Witness for C5: the 3 by 3 unit grid of the spec scenario, stiffness
25, dampening 1/2, stepped 100 times at dt = 1/100. -/
theorem rest_config_fixed_point_witness :
    ((0 : ℝ) ≤ 1 ∧ (0 : ℝ) ≤ 1) ∧
    (((((update false false false (1/100))^[100]) (mkSoftBody 1 1 3 3 25 (1/2))).bodies
        (0 : Fin 3) (0 : Fin 3)).position =
      ((mkSoftBody 1 1 3 3 25 (1/2)).bodies (0 : Fin 3) (0 : Fin 3)).position ∧
     (((((update false false false (1/100))^[100]) (mkSoftBody 1 1 3 3 25 (1/2))).bodies
        (0 : Fin 3) (0 : Fin 3)).velocity =
      ((mkSoftBody 1 1 3 3 25 (1/2)).bodies (0 : Fin 3) (0 : Fin 3)).velocity ∧
     ((mkSoftBody 1 1 3 3 25 (1/2)).bodies (0 : Fin 3) (0 : Fin 3)).velocity = vec3 0 0 0)) :=
  ⟨⟨by norm_num, by norm_num⟩,
   rest_config_fixed_point 1 1 25 (1/2) (1/100) 3 3 100 (by norm_num) (by norm_num)
     (0 : Fin 3) (0 : Fin 3)⟩

/-! Membership of the four neighbor displacements. -/

theorem mem_cellDisplacements_up {sy sx : ℕ} (b : SoftBody sy sx) (i : Fin sy)
    (j : Fin sx) (hcond : 0 < i.val) :
    ((b.bodies (prevIdx i hcond) j).position - (b.bodies i j).position) ∈
      cellDisplacements b i j := by
  unfold cellDisplacements
  rw [dif_pos hcond]
  simp [List.mem_append]

theorem mem_cellDisplacements_down {sy sx : ℕ} (b : SoftBody sy sx) (i : Fin sy)
    (j : Fin sx) (hcond : i.val < sy - 1) :
    ((b.bodies (nextIdx i hcond) j).position - (b.bodies i j).position) ∈
      cellDisplacements b i j := by
  unfold cellDisplacements
  rw [dif_pos hcond]
  simp [List.mem_append]

theorem mem_cellDisplacements_left {sy sx : ℕ} (b : SoftBody sy sx) (i : Fin sy)
    (j : Fin sx) (hcond : 0 < j.val) :
    ((b.bodies i (prevIdx j hcond)).position - (b.bodies i j).position) ∈
      cellDisplacements b i j := by
  unfold cellDisplacements
  rw [dif_pos hcond]
  simp [List.mem_append]

theorem mem_cellDisplacements_right {sy sx : ℕ} (b : SoftBody sy sx) (i : Fin sy)
    (j : Fin sx) (hcond : j.val < sx - 1) :
    ((b.bodies i (nextIdx j hcond)).position - (b.bodies i j).position) ∈
      cellDisplacements b i j := by
  unfold cellDisplacements
  rw [dif_pos hcond]
  simp [List.mem_append]

theorem mem_normalizeArgs_of_cell {sy sx : ℕ} (b : SoftBody sy sx) (i : Fin sy)
    (j : Fin sx) (d : Vec3) (hd : d ∈ cellDisplacements b i j) :
    d ∈ normalizeArgs b := by
  unfold normalizeArgs
  rw [List.mem_flatMap]
  exact ⟨(i, j), mem_cellList i j, hd⟩

/-- C9: the force pass normalizes every neighbor displacement with no
zero-length guard: when two linked nodes coincide, the zero vector is
among the arguments handed to glm normalize during the pass; and under
the precondition that no two linked nodes coincide, every argument handed
to normalize has nonzero length, so each normalization is well defined. -/
theorem normalize_zero_guard {sy sx : ℕ} (b : SoftBody sy sx) :
    (∀ c cn : Fin sy × Fin sx, Linked c cn →
      (b.bodies c.1 c.2).position = (b.bodies cn.1 cn.2).position →
      (0 : Vec3) ∈ normalizeArgs b) ∧
    ((∀ c cn : Fin sy × Fin sx, Linked c cn →
        (b.bodies c.1 c.2).position ≠ (b.bodies cn.1 cn.2).position) →
      ∀ d ∈ normalizeArgs b, glmLength d ≠ 0) := by
  constructor
  · intro c cn hL hpos
    rcases hL with ⟨hrow, hcol | hcol⟩ | ⟨hcol, hrow | hrow⟩
    · -- right neighbor: c.2.val + 1 = cn.2.val
      have hcond : c.2.val < sx - 1 := by
        have := cn.2.isLt
        omega
      have hnext : nextIdx c.2 hcond = cn.2 := Fin.ext hcol
      have helt : (b.bodies c.1 (nextIdx c.2 hcond)).position - (b.bodies c.1 c.2).position =
          0 := by
        rw [hnext]
        rw [show (b.bodies c.1 cn.2).position = (b.bodies cn.1 cn.2).position by rw [hrow]]
        rw [← hpos, sub_self]
      have := mem_cellDisplacements_right b c.1 c.2 hcond
      rw [helt] at this
      exact mem_normalizeArgs_of_cell b c.1 c.2 0 this
    · -- left neighbor: cn.2.val + 1 = c.2.val
      have hcond : 0 < c.2.val := by omega
      have hprev : prevIdx c.2 hcond = cn.2 := Fin.ext (by
        show c.2.val - 1 = cn.2.val
        omega)
      have helt : (b.bodies c.1 (prevIdx c.2 hcond)).position - (b.bodies c.1 c.2).position =
          0 := by
        rw [hprev]
        rw [show (b.bodies c.1 cn.2).position = (b.bodies cn.1 cn.2).position by rw [hrow]]
        rw [← hpos, sub_self]
      have := mem_cellDisplacements_left b c.1 c.2 hcond
      rw [helt] at this
      exact mem_normalizeArgs_of_cell b c.1 c.2 0 this
    · -- down neighbor: c.1.val + 1 = cn.1.val
      have hcond : c.1.val < sy - 1 := by
        have := cn.1.isLt
        omega
      have hnext : nextIdx c.1 hcond = cn.1 := Fin.ext hrow
      have helt : (b.bodies (nextIdx c.1 hcond) c.2).position - (b.bodies c.1 c.2).position =
          0 := by
        rw [hnext]
        rw [show (b.bodies cn.1 c.2).position = (b.bodies cn.1 cn.2).position by rw [hcol]]
        rw [← hpos, sub_self]
      have := mem_cellDisplacements_down b c.1 c.2 hcond
      rw [helt] at this
      exact mem_normalizeArgs_of_cell b c.1 c.2 0 this
    · -- up neighbor: cn.1.val + 1 = c.1.val
      have hcond : 0 < c.1.val := by omega
      have hprev : prevIdx c.1 hcond = cn.1 := Fin.ext (by
        show c.1.val - 1 = cn.1.val
        omega)
      have helt : (b.bodies (prevIdx c.1 hcond) c.2).position - (b.bodies c.1 c.2).position =
          0 := by
        rw [hprev]
        rw [show (b.bodies cn.1 c.2).position = (b.bodies cn.1 cn.2).position by rw [hcol]]
        rw [← hpos, sub_self]
      have := mem_cellDisplacements_up b c.1 c.2 hcond
      rw [helt] at this
      exact mem_normalizeArgs_of_cell b c.1 c.2 0 this
  · intro hdist d hd
    unfold normalizeArgs at hd
    rw [List.mem_flatMap] at hd
    obtain ⟨c, -, hdc⟩ := hd
    unfold cellDisplacements at hdc
    simp only [List.mem_append] at hdc
    rcases hdc with ((h1 | h2) | h3) | h4
    · by_cases hcond : 0 < c.1.val
      · rw [dif_pos hcond, List.mem_singleton] at h1
        subst h1
        have hLk : Linked c (prevIdx c.1 hcond, c.2) := by
          refine Or.inr ⟨rfl, Or.inr ?_⟩
          show (c.1.val - 1) + 1 = c.1.val
          omega
        exact glmLength_ne_zero (sub_ne_zero.mpr (Ne.symm (hdist c _ hLk)))
      · rw [dif_neg hcond] at h1
        simp at h1
    · by_cases hcond : c.1.val < sy - 1
      · rw [dif_pos hcond, List.mem_singleton] at h2
        subst h2
        have hLk : Linked c (nextIdx c.1 hcond, c.2) := by
          refine Or.inr ⟨rfl, Or.inl ?_⟩
          show c.1.val + 1 = c.1.val + 1
          rfl
        exact glmLength_ne_zero (sub_ne_zero.mpr (Ne.symm (hdist c _ hLk)))
      · rw [dif_neg hcond] at h2
        simp at h2
    · by_cases hcond : 0 < c.2.val
      · rw [dif_pos hcond, List.mem_singleton] at h3
        subst h3
        have hLk : Linked c (c.1, prevIdx c.2 hcond) := by
          refine Or.inl ⟨rfl, Or.inr ?_⟩
          show (c.2.val - 1) + 1 = c.2.val
          omega
        exact glmLength_ne_zero (sub_ne_zero.mpr (Ne.symm (hdist c _ hLk)))
      · rw [dif_neg hcond] at h3
        simp at h3
    · by_cases hcond : c.2.val < sx - 1
      · rw [dif_pos hcond, List.mem_singleton] at h4
        subst h4
        have hLk : Linked c (c.1, nextIdx c.2 hcond) := by
          refine Or.inl ⟨rfl, Or.inl ?_⟩
          show c.2.val + 1 = c.2.val + 1
          rfl
        exact glmLength_ne_zero (sub_ne_zero.mpr (Ne.symm (hdist c _ hLk)))
      · rw [dif_neg hcond] at h4
        simp at h4

/-- Witness for C9: a degenerate 1 by 2 grid of zero extent, whose two
linked nodes coincide, feeds the zero vector to normalize, while the unit
1 by 2 grid satisfies the distinctness precondition and all its
normalize arguments have nonzero length. -/
theorem normalize_zero_guard_witness :
    (Linked ((0 : Fin 2), (0 : Fin 1)) ((1 : Fin 2), (0 : Fin 1)) ∧
     ((mkSoftBody 0 0 1 2 25 (1/2)).bodies (0 : Fin 2) (0 : Fin 1)).position =
       ((mkSoftBody 0 0 1 2 25 (1/2)).bodies (1 : Fin 2) (0 : Fin 1)).position ∧
     (0 : Vec3) ∈ normalizeArgs (mkSoftBody 0 0 1 2 25 (1/2))) ∧
    ((∀ c cn : Fin 2 × Fin 1, Linked c cn →
        ((mkSoftBody 1 1 1 2 25 (1/2)).bodies c.1 c.2).position ≠
          ((mkSoftBody 1 1 1 2 25 (1/2)).bodies cn.1 cn.2).position) ∧
     ∀ d ∈ normalizeArgs (mkSoftBody 1 1 1 2 25 (1/2)), glmLength d ≠ 0) := by
  have hL : Linked ((0 : Fin 2), (0 : Fin 1)) ((1 : Fin 2), (0 : Fin 1)) := by
    refine Or.inr ⟨rfl, Or.inl ?_⟩
    decide
  have hpos : ((mkSoftBody 0 0 1 2 25 (1/2)).bodies (0 : Fin 2) (0 : Fin 1)).position =
      ((mkSoftBody 0 0 1 2 25 (1/2)).bodies (1 : Fin 2) (0 : Fin 1)).position := by
    show vec3 (-(0:ℝ)/2 + 0/((1:ℕ):ℝ) * (((0 : Fin 1)).val : ℝ))
        (-(0:ℝ)/2 + 0/((2:ℕ):ℝ) * (((0 : Fin 2)).val : ℝ)) 0 =
      vec3 (-(0:ℝ)/2 + 0/((1:ℕ):ℝ) * (((0 : Fin 1)).val : ℝ))
        (-(0:ℝ)/2 + 0/((2:ℕ):ℝ) * (((1 : Fin 2)).val : ℝ)) 0
    unfold vec3
    norm_num
  have hdist : ∀ c cn : Fin 2 × Fin 1, Linked c cn →
      ((mkSoftBody 1 1 1 2 25 (1/2)).bodies c.1 c.2).position ≠
        ((mkSoftBody 1 1 1 2 25 (1/2)).bodies cn.1 cn.2).position := by
    intro c cn hLk heq
    have hy := congrArg (fun v : Vec3 => v.2.1) heq
    have hy2 : -(1:ℝ)/2 + 1/((2:ℕ):ℝ) * ((c.1.val : ℕ) : ℝ) =
        -(1:ℝ)/2 + 1/((2:ℕ):ℝ) * ((cn.1.val : ℕ) : ℝ) := hy
    have hvals : c.1.val = cn.1.val := by
      field_simp at hy2
      exact_mod_cast hy2
    rcases hLk with ⟨-, hc | hc⟩ | ⟨-, hc | hc⟩
    · have := cn.2.isLt
      omega
    · have := c.2.isLt
      omega
    · omega
    · omega
  exact ⟨⟨hL, hpos, (normalize_zero_guard (mkSoftBody 0 0 1 2 25 (1/2))).1 _ _ hL hpos⟩,
    ⟨hdist, (normalize_zero_guard (mkSoftBody 1 1 1 2 25 (1/2))).2 hdist⟩⟩

/-- C3 counterexample: at a frame whose delta equals the fixed step
exactly (step 0.01, wall time 0.01 from the initial state), the claimed
behavior (catch-up branch already at dt not smaller than the step)
performs one update, while the code demands dt strictly greater than the
step and performs none, so the claim as stated is false at this input. -/
theorem checkTime_equal_dt_counterexample :
    (checkTime (1/100) stepperInit (1/100)).2 = 0 ∧
    (checkTimeClaimed (1/100) stepperInit (1/100)).2 = 1 ∧
    checkTime (1/100) stepperInit (1/100) ≠ checkTimeClaimed (1/100) stepperInit (1/100) := by
  have h1 : checkTime (1/100) stepperInit (1/100) = (stepperInit, 0) :=
    checkTime_skip _ _ _ (by norm_num [stepperInit])
  refine ⟨by rw [h1], checkTimeClaimed_at_step, ?_⟩
  intro hcontra
  have h2 := checkTimeClaimed_at_step
  rw [← hcontra, h1] at h2
  exact absurd h2 (by decide)

/-- C3 amended: a frame does nothing when dt is at most (not: smaller
than) the fixed step; when dt strictly exceeds it, timebase is set to t,
dt is clamped at 0.25, added to the accumulator, and whole steps are
drained, which equals the closed form frameResult (floor count and floor
remainder); and on the spec scenario (step 0.01, reports advancing by
0.005, 0.006, 0.029) the run performs floor(0.04/0.01) = 4 updates and
retains 0.04 mod 0.01 = 0 in the accumulator, the cumulative clamped
delta being 0.011 + 0.029 = 0.04. -/
theorem checkTime_spec_amended (step : ℚ) (s : Stepper) (t : ℚ)
    (hstep : 0 < step) (hacc : 0 ≤ s.accumulator) :
    (t - s.timebase ≤ step → checkTime step s t = (s, 0)) ∧
    (step < t - s.timebase → checkTime step s t = frameResult step s t) ∧
    ((runFrames (1/100) stepperInit [1/200, 11/1000, 1/25]).2 =
      (⌊((1:ℚ)/25) / (1/100)⌋).toNat ∧
     (runFrames (1/100) stepperInit [1/200, 11/1000, 1/25]).1.accumulator =
      1/25 - (1/100) * ⌊((1:ℚ)/25) / (1/100)⌋) := by
  refine ⟨fun hle => checkTime_skip step s t hle,
    fun hgt => checkTime_go step s t hstep hgt hacc, ?_, ?_⟩
  · rw [runFrames_drain_run]
    norm_num
    decide
  · rw [runFrames_drain_run]
    norm_num

/-- Witness for C3: the amended frame description applied at step 0.01
from the initial state with wall time 0.02. -/
theorem checkTime_spec_amended_witness :
    ((0:ℚ) < 1/100 ∧ (0:ℚ) ≤ stepperInit.accumulator) ∧
    (((1:ℚ)/50 - stepperInit.timebase ≤ 1/100 →
        checkTime (1/100) stepperInit (1/50) = (stepperInit, 0)) ∧
     ((1:ℚ)/100 < (1:ℚ)/50 - stepperInit.timebase →
        checkTime (1/100) stepperInit (1/50) = frameResult (1/100) stepperInit (1/50)) ∧
     ((runFrames (1/100) stepperInit [1/200, 11/1000, 1/25]).2 =
        (⌊((1:ℚ)/25) / (1/100)⌋).toNat ∧
      (runFrames (1/100) stepperInit [1/200, 11/1000, 1/25]).1.accumulator =
        1/25 - (1/100) * ⌊((1:ℚ)/25) / (1/100)⌋)) :=
  ⟨⟨by norm_num, by norm_num [stepperInit]⟩,
   checkTime_spec_amended (1/100) stepperInit (1/50) (by norm_num) (by norm_num [stepperInit])⟩

/-- C4 counterexample: the claimed per-frame bound floor(0.25/step) = 20
(program step 0.012) is exceeded on a reachable state: a frame of delta
0.014 leaves 0.002 in the accumulator, and the next frame, a 10-second
jump, drains 21 updates. -/
theorem clampBound_counterexample : ¬ ClaimClampBound := by
  intro hcl
  have hreach : Reachable physicsStep ({ timebase := 7/500, accumulator := 1/500 }) := by
    refine ⟨[7/500], ?_⟩
    simp only [runFrames]
    rw [checkTime_jump_setup]
  have hb := hcl _ hreach (7/500 + 10) (by norm_num)
  rw [checkTime_jump_eval] at hb
  have h20 : (⌊(0.25 : ℚ) / physicsStep⌋).toNat = 20 := by
    norm_num [physicsStep]
    decide
  omega

/-- C4 amended: on every reachable scheduler state, a frame with a
10-second wall-clock jump at the program step 0.012 drains at most
floor(0.25/fixedStep) + 1 = 21 updates (the one extra step coming from
accumulator carried in below one step), far below floor(10/fixedStep). -/
theorem clampBound_amended (s : Stepper) (hs : Reachable physicsStep s) (t : ℚ)
    (ht : t - s.timebase = 10) :
    (checkTime physicsStep s t).2 ≤ (⌊(0.25 : ℚ) / physicsStep⌋).toNat + 1 := by
  have hstep : (0:ℚ) < physicsStep := by norm_num [physicsStep]
  obtain ⟨hacc0, hacc1⟩ := reachable_inv physicsStep hstep s hs
  have hgt : physicsStep < t - s.timebase := by
    rw [ht]
    norm_num [physicsStep]
  rw [checkTime_go physicsStep s t hstep hgt hacc0]
  show (⌊(s.accumulator +
      (if (0.25:ℚ) < t - s.timebase then (0.25:ℚ) else t - s.timebase)) / physicsStep⌋).toNat ≤ _
  rw [ht, if_pos (by norm_num : (0.25:ℚ) < 10)]
  have hstepval : physicsStep = 3/250 := by norm_num [physicsStep]
  have hub : (s.accumulator + (0.25:ℚ)) / physicsStep < 22 := by
    rw [div_lt_iff₀ hstep, hstepval]
    rw [hstepval] at hacc1
    norm_num at hacc1 ⊢
    linarith
  have hfl : ⌊(s.accumulator + (0.25:ℚ)) / physicsStep⌋ < 22 := by
    rw [Int.floor_lt]
    push_cast
    exact hub
  have h20 : (⌊(0.25 : ℚ) / physicsStep⌋).toNat = 20 := by
    norm_num [physicsStep]
    decide
  omega

/-- Witness for C4: the amended bound applied at the initial state with a
jump to wall time 10. -/
theorem clampBound_amended_witness :
    Reachable physicsStep stepperInit ∧ ((10:ℚ) - stepperInit.timebase = 10) ∧
    (checkTime physicsStep stepperInit 10).2 ≤ (⌊(0.25 : ℚ) / physicsStep⌋).toNat + 1 :=
  ⟨⟨[], rfl⟩, by norm_num [stepperInit],
   clampBound_amended stepperInit ⟨[], rfl⟩ 10 (by norm_num [stepperInit])⟩

/-- Witness for C8: applying the invariant at mass 2 discharges the
nonzero-mass hypothesis and yields inverseMass * mass = 1 there. -/
theorem mass_inverseMass_invariant_witness :
    ((2 : ℝ) ≠ 0) ∧
    (RigidBody.make (vec3 0 0 0) (vec3 0 0 0) (vec3 0 0 0) 2).inverseMass *
      (RigidBody.make (vec3 0 0 0) (vec3 0 0 0) (vec3 0 0 0) 2).mass = 1 :=
  ⟨by norm_num,
   mass_inverseMass_invariant.2.1 (vec3 0 0 0) (vec3 0 0 0) (vec3 0 0 0) 2 (by norm_num)⟩

end MassSpring
